import Mathlib

/-!
Verification development for the `clanker-input` tool (src/src/index.ts).

The TypeScript source is shallowly embedded: pure string manipulation is
translated to functions on `String` / `List Char`; the stateful
dialog-invocation loop (`handleChainedQuestions`) becomes explicit state
passing with an oracle describing what each external dialog invocation
does; external process execution is abstracted as an outcome value.
-/

namespace ClankerInput

/-! ## Character and string helpers (JS semantics on ASCII) -/

/-- The character class of the regex token for word characters used in
`generateAnswerKey`: ASCII letters, digits and underscore. -/
def isWordChar (c : Char) : Bool :=
  c.isAlpha || c.isDigit || c == '_'

/-- ASCII lower casing, matching what `toLowerCase` and the regex
case-insensitive flag do on the ASCII characters involved. -/
def jsLower (c : Char) : Char := c.toLower

/-- Does `pat` occur at the start of `s`? -/
def isPrefixList : List Char → List Char → Bool
  | [], _ => true
  | _ :: _, [] => false
  | p :: pt, c :: ct => p == c && isPrefixList pt ct

/-- JS `String.prototype.includes` on character lists. -/
def includesList (s pat : List Char) : Bool :=
  match s with
  | [] => pat.isEmpty
  | _ :: t => isPrefixList pat s || includesList t pat

/-- JS `String.prototype.includes`. -/
def includes (s pat : String) : Bool := includesList s.data pat.data

/-! ## Key Deriver (`generateAnswerKey`, index.ts lines 707-735)

The seven regex patterns are embedded as explicit leftmost-match scanners
with the exact backtracking behaviour of the source patterns:
five are of the form `lit (?:alt1 |alt2 )?(\w+)` and two of the form
`(\w+)d` for a delimiter `d`. -/

/-- Case-insensitively strip the literal `pat` (given lower-case) from the
front of `s`, returning the rest on success. -/
def stripLitCI : List Char → List Char → Option (List Char)
  | [], s => some s
  | _ :: _, [] => none
  | p :: pt, c :: ct => if jsLower c == p then stripLitCI pt ct else none

/-- Greedy `(\w+)` capture anchored at the current position. -/
def captureWord : List Char → Option (List Char)
  | [] => none
  | c :: t => if isWordChar c then some (c :: t.takeWhile isWordChar) else none

/-- Try the alternatives of the optional group `(?:a1|a2)?` in order; an
alternative succeeds only if a `(\w+)` capture follows it (otherwise the
regex engine backtracks to the next alternative). -/
def tryAlts : List (List Char) → List Char → Option (List Char)
  | [], _ => none
  | a :: more, rest =>
    match (stripLitCI a rest).bind captureWord with
    | some w => some w
    | none => tryAlts more rest

/-- Match `lit (?:alts)?(\w+)` anchored at the start of `s`, returning the
capture group. The empty branch of the optional group is tried after the
listed alternatives, exactly as the regex engine backtracks. -/
def matchSeqAt (lit : List Char) (alts : List (List Char)) (s : List Char) :
    Option (List Char) :=
  match stripLitCI lit s with
  | none => none
  | some rest =>
    match tryAlts alts rest with
    | some w => some w
    | none => captureWord rest

/-- Match `(\w+)d` anchored at the start of `s` for a non-word delimiter
`d`: the greedy capture cannot backtrack past word characters, so the
delimiter must follow the maximal word run. -/
def matchWordThen (delim : Char) (s : List Char) : Option (List Char) :=
  match s with
  | [] => none
  | c :: t =>
    if isWordChar c then
      match t.dropWhile isWordChar with
      | d :: _ => if d == delim then some (c :: t.takeWhile isWordChar) else none
      | [] => none
    else none

/-- Leftmost-match scan: try the anchored matcher at every start position
from left to right. -/
def scanMatch (m : List Char → Option (List Char)) : List Char → Option (List Char)
  | [] => m []
  | c :: t =>
    match m (c :: t) with
    | some w => some w
    | none => scanMatch m t

def litWhatIs : List Char := "what is ".data
def litEnter : List Char := "enter ".data
def litChoose : List Char := "choose ".data
def litSelect : List Char := "select ".data
def litProvide : List Char := "provide ".data
def altYour : List Char := "your ".data
def altThe : List Char := "the ".data
def altA : List Char := "a ".data

/-- First defined value in a list of optional captures (pattern priority). -/
def firstSome : List (Option (List Char)) → Option (List Char)
  | [] => none
  | o :: t => match o with | some w => some w | none => firstSome t

/-- The seven patterns of `generateAnswerKey`, tried in source order. -/
def runPatterns (s : List Char) : Option (List Char) :=
  firstSome
    [ scanMatch (matchSeqAt litWhatIs [altYour, altThe]) s
    , scanMatch (matchSeqAt litEnter [altYour, altThe]) s
    , scanMatch (matchSeqAt litChoose [altYour, altA]) s
    , scanMatch (matchSeqAt litSelect [altYour, altA]) s
    , scanMatch (matchSeqAt litProvide [altYour, altThe]) s
    , scanMatch (matchWordThen ':') s
    , scanMatch (matchWordThen '?') s ]

/-- JS whitespace class of the split regex (ASCII part). -/
def isJsSpace (c : Char) : Bool :=
  c == ' ' || c == '\t' || c == '\n' || c == '\r' ||
  c == Char.ofNat 11 || c == Char.ofNat 12

/-- JS `split` on a one-or-more-whitespace regex: maximal whitespace runs
separate the fields; leading and trailing runs produce empty fields, and
the empty string yields one empty field. -/
def splitWS : List Char → List (List Char)
  | [] => [[]]
  | c :: t =>
    let r := splitWS t
    if isJsSpace c then
      match t with
      | [] => [[], []]
      | c2 :: _ => if isJsSpace c2 then r else [] :: r
    else
      match r with
      | h :: rt => (c :: h) :: rt
      | [] => [[c]]

/-- The stop-word list of the fallback branch. -/
def stopWords : List String :=
  ["what", "enter", "your", "the", "please", "choose", "select"]

/-- The fallback significant-word test: longer than three characters and
not a stop word. -/
def isSignificantWord (w : List Char) : Bool :=
  decide (3 < w.length) && !(stopWords.contains (String.mk w))

/-- The function `generateAnswerKey(prompt, index)` of index.ts lines 707-735: the
first matching pattern's capture, lower-cased; otherwise the first
significant word of the lower-cased prompt; otherwise `answer(index+1)`. -/
def generateAnswerKey (prompt : String) (index : Nat) : String :=
  match runPatterns prompt.data with
  | some w => String.mk (w.map jsLower)
  | none =>
    match (splitWS (prompt.data.map jsLower)).find? isSignificantWord with
    | some w => String.mk w
    | none => "answer" ++ toString (index + 1)

/-! ## Data model

One question of a chain (the fields destructured from a `questions`
element at index.ts lines 609-616). Absent optional fields are `none`;
JS falsiness of an empty string is modelled explicitly where the source
tests it. -/

structure Question where
  prompt : Option String := none
  title : Option String := none
  default_value : Option String := none
  type : Option String := none
  password : Option Bool := none
  options : Option (List String) := none
deriving DecidableEq

/-- The tool's argument record (index.ts lines 116-131). -/
structure Args where
  prompt : Option String := none
  default_value : Option String := none
  title : Option String := none
  password : Option Bool := none
  options : Option (List String) := none
  type : Option String := none
  questions : Option (List Question) := none
deriving DecidableEq

/-- What one external dialog invocation does: resolve with a value or
reject with an error message (cancellation is a rejection whose message
contains `cancelled`, as thrown by the platform dialog functions). -/
inductive DialogAct
  | returns (value : String)
  | throws (message : String)
deriving DecidableEq

/-- The host platform as reported by `os.platform()`. -/
inductive Platform
  | darwin
  | win32
  | linux
  | other (name : String)
deriving DecidableEq

/-- Platforms having a dialog branch in the source's switch statements. -/
def Platform.isSupported : Platform → Bool
  | .other _ => false
  | _ => true

/-- The accumulated `answers` object: a JS object is an insertion-ordered
string map, re-assignment of an existing key keeps its position. -/
abbrev AnswerSet := List (String × String)

/-- Result of `handleChainedQuestions`, one constructor per `return`
shape of the source (plus `thrown` for the re-thrown non-cancellation
error at index.ts line 685). -/
inductive ChainResult
  | ok (output : String) (answers : AnswerSet) (questionCount : Nat)
  | failed (error : String)
  | cancelled (error : String) (answeredQuestions : Nat) (partialAnswers : AnswerSet)
  | thrown (message : String)
deriving DecidableEq

/-- Result of the tool's `execute` function. -/
inductive ExecuteResult
  | chained (r : ChainResult)
  | ok (value : String)
  | failed (error : String)
deriving DecidableEq

/-! ## AnswerSet operations (JS object assignment) -/

def hasKey : AnswerSet → String → Bool
  | [], _ => false
  | p :: t, k => if p.1 = k then true else hasKey t k

def setKey : AnswerSet → String → String → AnswerSet
  | [], _, _ => []
  | p :: t, k, v => (if p.1 = k then (k, v) else p) :: setKey t k v

/-- Assignment `answers[key] = value` (index.ts line 673): overwrite in place when
the key exists, append otherwise. -/
def insertAnswer (a : AnswerSet) (k v : String) : AnswerSet :=
  if hasKey a k then setKey a k v else a ++ [(k, v)]

def lookupKey : AnswerSet → String → Option String
  | [], _ => none
  | p :: t, k => if p.1 = k then some p.2 else lookupKey t k

def countKey : AnswerSet → String → Nat
  | [], _ => 0
  | p :: t, k => (if p.1 = k then 1 else 0) + countKey t k

/-- Formatting `Object.entries(answers).map(([k, v]) => k + ": " + v).join("\n")`
(index.ts lines 690-692). -/
def formatAnswers (a : AnswerSet) : String :=
  String.intercalate "\n" (a.map fun p => p.1 ++ ": " ++ p.2)

/-! ## Chain Orchestrator (`handleChainedQuestions`, index.ts 601-702) -/

/-- JS truthiness test `!prompt`: absent or empty. -/
def promptMissingB : Option String → Bool
  | none => true
  | some s => s.isEmpty

/-- The dropdown validation test `!options || options.length === 0`. -/
def optionsMissingB : Option (List String) → Bool
  | none => true
  | some l => l.isEmpty

/-- The `inputType` of a chained question: destructuring defaults `type` to
the string `text` when absent; an explicitly empty `type` string is falsy
and falls back to the password flag (index.ts lines 613-626). -/
def effectiveType (q : Question) : String :=
  match q.type with
  | none => "text"
  | some t =>
    if t = "" then (if q.password.getD false then "password" else "text") else t

/-- The `inputType` on the single-question path, which has no destructuring
default for `type` (index.ts line 150). -/
def singleEffType (args : Args) : String :=
  match args.type with
  | none => if args.password.getD false then "password" else "text"
  | some t =>
    if t = "" then (if args.password.getD false then "password" else "text") else t

/-- A chained question that passes both per-question validations. -/
def chainValidQ (q : Question) : Bool :=
  !promptMissingB q.prompt &&
  !(decide (effectiveType q = "dropdown") && optionsMissingB q.options)

/-- The loop of `handleChainedQuestions`. `dialog i` is what the external
dialog invocation for question `i` does; the returned list records the
indices of the questions whose dialog was actually invoked (external
processes spawned). `total` is `questions.length`, `i` the loop index,
`acc` the `answers` object, `sp` the spawn log. -/
def runChainAux (p : Platform) (dialog : Nat → DialogAct) (total : Nat) :
    List Question → Nat → AnswerSet → List Nat → ChainResult × List Nat
  | [], _, acc, sp => (.ok (formatAnswers acc) acc total, sp)
  | q :: rest, i, acc, sp =>
    if promptMissingB q.prompt then
      (.failed ("Question " ++ toString (i + 1) ++ " is missing required \"prompt\" field"), sp)
    else if effectiveType q = "dropdown" ∧ optionsMissingB q.options = true then
      (.failed ("Question " ++ toString (i + 1) ++ ": Dropdown type requires options array"), sp)
    else
      match p with
      | .other name => (.failed ("Unsupported platform: " ++ name), sp)
      | _ =>
        match dialog i with
        | .returns r =>
          runChainAux p dialog total rest (i + 1)
            (insertAnswer acc (generateAnswerKey (q.prompt.getD "") i) r) (sp ++ [i])
        | .throws m =>
          if includes m "cancelled" then
            (.cancelled ("User cancelled at question " ++ toString (i + 1)) i acc, sp ++ [i])
          else
            (.thrown m, sp ++ [i])

/-- The function `handleChainedQuestions(questions, context)`. -/
def runChain (p : Platform) (dialog : Nat → DialogAct) (qs : List Question) :
    ChainResult × List Nat :=
  runChainAux p dialog qs.length qs 0 [] []

/-- The single-question path of `execute` (index.ts lines 138-215),
with the dialog invocation abstracted as `singleDialog`. The spawn log
is `[0]` exactly when an adapter was invoked. -/
def executeSingle (p : Platform) (singleDialog : DialogAct) (args : Args) :
    ExecuteResult × List Nat :=
  if promptMissingB args.prompt then
    (.failed "Either \"prompt\" or \"questions\" parameter is required", [])
  else if singleEffType args = "dropdown" ∧ optionsMissingB args.options = true then
    (.failed "Dropdown type requires options array", [])
  else
    match p with
    | .other name => (.failed ("Unsupported platform: " ++ name), [])
    | _ =>
      match singleDialog with
      | .returns s => (.ok s, [0])
      | .throws m => (.failed ("Failed to show input dialog: " ++ m), [0])

/-- The tool's `execute` (index.ts lines 115-216): a present non-empty
`questions` array takes the chained path, otherwise the single path. -/
def execute (p : Platform) (chainDialog : Nat → DialogAct) (singleDialog : DialogAct)
    (args : Args) : ExecuteResult × List Nat :=
  match args.questions with
  | some qs =>
    if 0 < qs.length then
      ((.chained (runChain p chainDialog qs).1), (runChain p chainDialog qs).2)
    else executeSingle p singleDialog args
  | none => executeSingle p singleDialog args

/-! ## Mechanism adapters on Linux (index.ts 296-384) -/

/-- Outcome of one `execAsync` call: resolved standard output, or a
rejection carrying the error message. -/
inductive ExecOut
  | ok (stdout : String)
  | fail (message : String)
deriving DecidableEq

/-- The `showZenityDialog` result handling (index.ts lines 335-343): an error
whose message contains `code 1` or `code 255` is rethrown as the
cancellation error, any other error is rethrown as is. -/
def showZenityDialog (e : ExecOut) : Except String String :=
  match e with
  | .ok out => .ok out.trim
  | .fail m =>
    if includes m "code 1" || includes m "code 255" then
      .error "User cancelled the input dialog"
    else .error m

/-- The `showKdialogDialog` result handling (index.ts lines 358-366). -/
def showKdialogDialog (e : ExecOut) : Except String String :=
  match e with
  | .ok out => .ok out.trim
  | .fail m =>
    if includes m "code 1" then .error "User cancelled the input dialog"
    else .error m

/-- The `showTerminalInput` result handling (index.ts lines 377-383). -/
def showTerminalInput (e : ExecOut) : Except String String :=
  match e with
  | .ok out => .ok out.trim
  | .fail _ => .error "Failed to read input from terminal"

/-- Which adapter ran a dialog. -/
inductive Adapter
  | zenity
  | kdialog
  | terminal
deriving DecidableEq

/-- A Linux environment: presence of the two binaries (the `which`
probes) and what each adapter's external invocation would produce. -/
structure LinuxEnv where
  zenityPresent : Bool
  kdialogPresent : Bool
  zenityRun : ExecOut
  kdialogRun : ExecOut
  terminalRun : ExecOut
deriving DecidableEq

/-- The kdialog-then-terminal part of `showLinuxDialog`'s catch handler
(index.ts lines 305-312). -/
def linuxFallback (env : LinuxEnv) (tr : List Adapter) :
    Except String String × List Adapter :=
  if env.kdialogPresent then
    match showKdialogDialog env.kdialogRun with
    | .ok s => (.ok s, tr ++ [.kdialog])
    | .error _ => (showTerminalInput env.terminalRun, tr ++ [.kdialog, .terminal])
  else (showTerminalInput env.terminalRun, tr ++ [.terminal])

/-- The function `showLinuxDialog` (index.ts lines 299-314): both the `which zenity`
probe and the zenity dialog run inside the same try, so any zenity
rejection falls through to the kdialog branch. The second component
records which adapters' dialogs were invoked. -/
def showLinuxDialog (env : LinuxEnv) : Except String String × List Adapter :=
  if env.zenityPresent then
    match showZenityDialog env.zenityRun with
    | .ok s => (.ok s, [.zenity])
    | .error _ => linuxFallback env [.zenity]
  else linuxFallback env []

/-! ## Escapers (index.ts 222-238, 263-265, 323) and the decoders of their
target syntaxes.

The decoders model the external interpreters named by the specification:
POSIX shell word parsing (single-quote, double-quote and backslash rules;
an expansion character that cannot be decoded statically yields `none`),
AppleScript double-quoted string literals, and PowerShell single-quoted
string literals. -/

/-- Backslash. -/
def bsC : Char := Char.ofNat 92
/-- Double quote. -/
def dqC : Char := Char.ofNat 34
/-- Single quote. -/
def sqC : Char := Char.ofNat 39
/-- Newline. -/
def nlC : Char := Char.ofNat 10
/-- Backtick (shell command substitution). -/
def btC : Char := Char.ofNat 96

/-- JS `String.prototype.replace` with a global single-character pattern
and a fixed replacement. -/
def jsReplaceChar (target : Char) (repl : List Char) : List Char → List Char
  | [] => []
  | c :: t => (if c = target then repl else [c]) ++ jsReplaceChar target repl t

/-- The four chained replacements of `showMacOSDialog` (index.ts 224-228):
double backslashes, escape double quotes, shell-escape single quotes,
fold newlines to spaces. -/
def escapeASList (l : List Char) : List Char :=
  jsReplaceChar nlC [' '] (jsReplaceChar sqC [sqC, bsC, sqC, sqC]
    (jsReplaceChar dqC [bsC, dqC] (jsReplaceChar bsC [bsC, bsC] l)))

def escapeAppleScript (s : String) : String := String.mk (escapeASList s.data)

/-- The PowerShell escaper (index.ts 263): double every single quote. -/
def escapePowerShell (s : String) : String :=
  String.mk (jsReplaceChar sqC [sqC, sqC] s.data)

/-- The POSIX double-quoted-argument escaper used by the zenity, kdialog
and terminal adapters (e.g. index.ts 323): backslash-escape double
quotes, nothing else. -/
def escapePosixArg (s : String) : String :=
  String.mk (jsReplaceChar dqC [bsC, dqC] s.data)

def collapseNLList (l : List Char) : List Char :=
  l.map fun c => if c = nlC then ' ' else c

/-- The reference output of an escaper according to the specification:
the input with every newline replaced by a single space. -/
def collapseNewlines (s : String) : String := String.mk (collapseNLList s.data)

/-- The per-character image of the composed AppleScript escaper: the four
global replacements act independently on each character. -/
def encAS (c : Char) : List Char :=
  if c = bsC then [bsC, bsC]
  else if c = dqC then [bsC, dqC]
  else if c = sqC then [sqC, bsC, sqC, sqC]
  else if c = nlC then [' ']
  else [c]

/-- The per-character residue of the AppleScript escaper after the shell
single-quote layer has been decoded: an AppleScript-literal escape for
backslash and double quote, a space for a newline, the character itself
otherwise. -/
def midAS (c : Char) : List Char :=
  if c = bsC then [bsC, bsC]
  else if c = dqC then [bsC, dqC]
  else if c = nlC then [' ']
  else [c]

def midList : List Char → List Char
  | [] => []
  | c :: t => midAS c ++ midList t

/-- Quoting state of the POSIX shell word parser. -/
inductive ShState
  | inSQ
  | inDQ
  | unq
deriving DecidableEq

/-- POSIX shell word decoding: returns the decoded characters and the
final quoting state. Expansion characters in an active context cannot be
decoded statically and yield `none`, as does a dangling backslash. -/
def shellDecodeAux : ShState → List Char → Option (List Char × ShState)
  | st, [] => some ([], st)
  | .inSQ, c :: t =>
    if c = sqC then shellDecodeAux .unq t
    else (shellDecodeAux .inSQ t).map fun r => (c :: r.1, r.2)
  | .unq, c :: t =>
    if c = sqC then shellDecodeAux .inSQ t
    else if c = dqC then shellDecodeAux .inDQ t
    else if c = bsC then
      match t with
      | [] => none
      | d :: t2 =>
        if d = nlC then shellDecodeAux .unq t2
        else (shellDecodeAux .unq t2).map fun r => (d :: r.1, r.2)
    else if c = '$' || c = btC then none
    else (shellDecodeAux .unq t).map fun r => (c :: r.1, r.2)
  | .inDQ, c :: t =>
    if c = dqC then shellDecodeAux .unq t
    else if c = bsC then
      match t with
      | [] => none
      | d :: t2 =>
        if d = dqC || d = bsC || d = '$' || d = btC then
          (shellDecodeAux .inDQ t2).map fun r => (d :: r.1, r.2)
        else if d = nlC then shellDecodeAux .inDQ t2
        else (shellDecodeAux .inDQ t2).map fun r => (c :: d :: r.1, r.2)
    else if c = '$' || c = btC then none
    else (shellDecodeAux .inDQ t).map fun r => (c :: r.1, r.2)

/-- Decode a fragment substituted inside a single-quoted shell word: the
parse starts inside single quotes and must end inside them, so the
surrounding quotes pair up. -/
def shellSQDecode (s : String) : Option String :=
  match shellDecodeAux .inSQ s.data with
  | some (r, .inSQ) => some (String.mk r)
  | _ => none

/-- Decode a fragment substituted inside a double-quoted shell word. -/
def shellDQDecode (s : String) : Option String :=
  match shellDecodeAux .inDQ s.data with
  | some (r, .inDQ) => some (String.mk r)
  | _ => none

/-- AppleScript double-quoted string-literal body decoding. -/
def asLitDecode : List Char → Option (List Char)
  | [] => some []
  | c :: t =>
    if c = bsC then
      match t with
      | [] => none
      | d :: t2 =>
        if d = dqC then (asLitDecode t2).map (dqC :: ·)
        else if d = bsC then (asLitDecode t2).map (bsC :: ·)
        else if d = 'n' then (asLitDecode t2).map (nlC :: ·)
        else if d = 'r' then (asLitDecode t2).map ('\r' :: ·)
        else if d = 't' then (asLitDecode t2).map ('\t' :: ·)
        else none
    else if c = dqC then none
    else (asLitDecode t).map (c :: ·)

/-- The AppleScript escaper's target interpretation: the escaped text is
substituted into an AppleScript string literal inside a single-quoted
shell argument, so it is decoded by the shell first and by the
AppleScript literal syntax second. -/
def appleScriptDecode (s : String) : Option String :=
  match shellSQDecode s with
  | none => none
  | some mid => (asLitDecode mid.data).map String.mk

/-- PowerShell single-quoted string-literal body decoding: a doubled
quote denotes one quote, a lone quote would terminate the literal. -/
def psLitDecode : List Char → Option (List Char)
  | [] => some []
  | c :: t =>
    if c = sqC then
      match t with
      | [] => none
      | d :: t2 => if d = sqC then (psLitDecode t2).map (sqC :: ·) else none
    else (psLitDecode t).map (c :: ·)

def psLitDecodeS (s : String) : Option String := (psLitDecode s.data).map String.mk

/-- Texts whose characters the POSIX double-quote escaper handles:
no backslash, dollar sign or backtick. -/
def posixSafe (s : String) : Bool :=
  s.data.all fun c => !(c = bsC || c = '$' || c = btC)

/-! ## Derived notions used to state the chain properties -/

/-- Question `j` of the chain passes both per-question validations. -/
def okAt (qs : List Question) (j : Nat) : Bool :=
  match qs.get? j with
  | some q => chainValidQ q
  | none => false

/-- The answer set the loop accumulates over a run of answered questions
starting at index `i`, where `ans j` is the value the dialog for
question `j` resolves with. -/
def accumFrom (acc : AnswerSet) (i : Nat) :
    List Question → (Nat → String) → AnswerSet
  | [], _ => acc
  | q :: t, ans =>
    accumFrom (insertAnswer acc (generateAnswerKey (q.prompt.getD "") i) (ans i))
      (i + 1) t ans

/-- The answers accumulated from the questions before index `i`. -/
def accumAnswers (qs : List Question) (ans : Nat → String) (i : Nat) : AnswerSet :=
  accumFrom [] 0 (qs.take i) ans

/-- The largest absolute index (the list starting at index `i`) whose
question derives `key`. -/
def lastMatch : List Question → Nat → String → Option Nat
  | [], _, _ => none
  | q :: t, i, key =>
    match lastMatch t (i + 1) key with
    | some m => some m
    | none =>
      if generateAnswerKey (q.prompt.getD "") i = key then some i else none

/-! ## Key Deriver: captures are never empty -/

lemma captureWord_ne_nil : ∀ {s w : List Char}, captureWord s = some w → w ≠ []
  | [], w, h => by simp [captureWord] at h
  | c :: t, w, h => by
    by_cases hc : isWordChar c
    · have : c :: t.takeWhile isWordChar = w := by simpa [captureWord, hc] using h
      exact this ▸ List.cons_ne_nil c _
    · simp [captureWord, hc] at h

lemma tryAlts_ne_nil : ∀ (alts : List (List Char)) (rest w : List Char),
    tryAlts alts rest = some w → w ≠ []
  | [], rest, w, h => by simp [tryAlts] at h
  | a :: more, rest, w, h => by
    cases hsb : (stripLitCI a rest).bind captureWord with
    | some w2 =>
      have hw : w2 = w := by simpa [tryAlts, hsb] using h
      obtain ⟨r, _, hcw⟩ := Option.bind_eq_some.mp hsb
      exact hw ▸ captureWord_ne_nil hcw
    | none =>
      have h2 : tryAlts more rest = some w := by simpa [tryAlts, hsb] using h
      exact tryAlts_ne_nil more rest w h2

lemma matchSeqAt_ne_nil {lit alts s w} (h : matchSeqAt lit alts s = some w) :
    w ≠ [] := by
  cases hst : stripLitCI lit s with
  | none => simp [matchSeqAt, hst] at h
  | some rest =>
    cases hta : tryAlts alts rest with
    | some w2 =>
      have hw : w2 = w := by simpa [matchSeqAt, hst, hta] using h
      exact hw ▸ tryAlts_ne_nil alts rest w2 hta
    | none =>
      have h2 : captureWord rest = some w := by simpa [matchSeqAt, hst, hta] using h
      exact captureWord_ne_nil h2

lemma matchWordThen_ne_nil {d : Char} {s w : List Char}
    (h : matchWordThen d s = some w) : w ≠ [] := by
  cases s with
  | nil => simp [matchWordThen] at h
  | cons c t =>
    by_cases hc : isWordChar c
    · cases hdr : t.dropWhile isWordChar with
      | nil => simp [matchWordThen, hc, hdr] at h
      | cons d2 t2 =>
        by_cases hd : d2 == d
        · have hw : c :: t.takeWhile isWordChar = w := by
            simpa [matchWordThen, hc, hdr, hd] using h
          exact hw ▸ List.cons_ne_nil c _
        · simp [matchWordThen, hc, hdr, hd] at h
    · simp [matchWordThen, hc] at h

lemma scanMatch_ne_nil {m : List Char → Option (List Char)}
    (hm : ∀ s w, m s = some w → w ≠ []) :
    ∀ (s w : List Char), scanMatch m s = some w → w ≠ []
  | [], w, h => by
    simp only [scanMatch] at h
    exact hm [] w h
  | c :: t, w, h => by
    cases hmc : m (c :: t) with
    | some w2 =>
      have hw : w2 = w := by simpa [scanMatch, hmc] using h
      exact hw ▸ hm _ _ hmc
    | none =>
      have h2 : scanMatch m t = some w := by simpa [scanMatch, hmc] using h
      exact scanMatch_ne_nil hm t w h2

lemma firstSome_ne_nil : ∀ (l : List (Option (List Char))),
    (∀ o ∈ l, ∀ w, o = some w → w ≠ []) →
    ∀ w, firstSome l = some w → w ≠ []
  | [], _, w, h => by simp [firstSome] at h
  | o :: t, hl, w, h => by
    cases o with
    | some w2 =>
      have hw : w2 = w := by simpa [firstSome] using h
      exact hw ▸ hl (some w2) (by simp) w2 rfl
    | none =>
      have h2 : firstSome t = some w := by simpa [firstSome] using h
      exact firstSome_ne_nil t (fun o ho => hl o (List.mem_cons_of_mem _ ho)) w h2

lemma runPatterns_ne_nil {s w : List Char} (h : runPatterns s = some w) :
    w ≠ [] := by
  refine firstSome_ne_nil _ ?_ w h
  intro o ho w2 ho2
  simp only [List.mem_cons, List.not_mem_nil, or_false] at ho
  rcases ho with h1 | h1 | h1 | h1 | h1 | h1 | h1 <;> subst h1
  · exact scanMatch_ne_nil (fun _ _ hh => matchSeqAt_ne_nil hh) _ _ ho2
  · exact scanMatch_ne_nil (fun _ _ hh => matchSeqAt_ne_nil hh) _ _ ho2
  · exact scanMatch_ne_nil (fun _ _ hh => matchSeqAt_ne_nil hh) _ _ ho2
  · exact scanMatch_ne_nil (fun _ _ hh => matchSeqAt_ne_nil hh) _ _ ho2
  · exact scanMatch_ne_nil (fun _ _ hh => matchSeqAt_ne_nil hh) _ _ ho2
  · exact scanMatch_ne_nil (fun _ _ hh => matchWordThen_ne_nil hh) _ _ ho2
  · exact scanMatch_ne_nil (fun _ _ hh => matchWordThen_ne_nil hh) _ _ ho2

/-- C3: the Key Deriver meets the three specified test vectors. -/
theorem generateAnswerKey_test_vectors :
    generateAnswerKey "What is your name?" 0 = "name" ∧
    generateAnswerKey "Enter your email:" 1 = "email" ∧
    generateAnswerKey "xyz" 7 = "answer8" := by
  refine ⟨?_, ?_, ?_⟩ <;> decide

/-- C10: the Key Deriver is total and never produces an empty key: every
branch (pattern capture, significant word, positional fallback) yields a
non-empty string. -/
theorem generateAnswerKey_ne_empty (prompt : String) (index : Nat) :
    generateAnswerKey prompt index ≠ "" := by
  cases hp : runPatterns prompt.data with
  | some w =>
    have hgen : generateAnswerKey prompt index = String.mk (w.map jsLower) := by
      simp [generateAnswerKey, hp]
    rw [hgen]
    intro he
    have hd : w.map jsLower = ([] : List Char) := congrArg String.data he
    exact runPatterns_ne_nil hp (List.map_eq_nil_iff.mp hd)
  | none =>
    cases hf : (splitWS (prompt.data.map jsLower)).find? isSignificantWord with
    | some w =>
      have hgen : generateAnswerKey prompt index = String.mk w := by
        simp [generateAnswerKey, hp, hf]
      rw [hgen]
      intro he
      have hd : w = ([] : List Char) := congrArg String.data he
      have hsig := List.find?_some hf
      rw [hd] at hsig
      simp [isSignificantWord] at hsig
    | none =>
      have hgen : generateAnswerKey prompt index = "answer" ++ toString (index + 1) := by
        simp [generateAnswerKey, hp, hf]
      rw [hgen]
      intro he
      have hlen := congrArg String.length he
      rw [String.length_append] at hlen
      have h6 : ("answer" : String).length = 6 := rfl
      have h0 : ("" : String).length = 0 := rfl
      rw [h6, h0] at hlen
      omega

/-! ## AnswerSet: JS object assignment semantics -/

lemma lookupKey_setKey_ne (a : AnswerSet) (k v key : String) (hne : key ≠ k) :
    lookupKey (setKey a k v) key = lookupKey a key := by
  have hk : ¬k = key := fun h => hne h.symm
  induction a with
  | nil => rfl
  | cons x t ih =>
    by_cases hx : x.1 = k
    · have hxk : x.1 ≠ key := by rw [hx]; exact hk
      simp [setKey, lookupKey, hx, hk, hxk, ih]
    · by_cases hxkey : x.1 = key
      · simp [setKey, lookupKey, hx, hxkey, hne, ih]
      · simp [setKey, lookupKey, hx, hxkey, ih]

lemma lookupKey_setKey_self (a : AnswerSet) (k v : String) (hk : hasKey a k = true) :
    lookupKey (setKey a k v) k = some v := by
  induction a with
  | nil => simp [hasKey] at hk
  | cons x t ih =>
    by_cases hx : x.1 = k
    · simp [setKey, lookupKey, hx]
    · have hk2 : hasKey t k = true := by simpa [hasKey, hx] using hk
      simp [setKey, lookupKey, hx, ih hk2]

lemma lookupKey_of_hasKey_false (a : AnswerSet) (k : String) (h : hasKey a k = false) :
    lookupKey a k = none := by
  induction a with
  | nil => rfl
  | cons x t ih =>
    by_cases hx : x.1 = k
    · simp [hasKey, hx] at h
    · have h2 : hasKey t k = false := by simpa [hasKey, hx] using h
      simp [lookupKey, hx, ih h2]

lemma lookupKey_append (a b : AnswerSet) (k : String) :
    lookupKey (a ++ b) k =
      match lookupKey a k with
      | some v => some v
      | none => lookupKey b k := by
  induction a with
  | nil => simp [lookupKey]
  | cons x t ih =>
    by_cases hx : x.1 = k
    · simp [lookupKey, hx]
    · simp [lookupKey, hx, ih]

/-- JS `answers[key] = value` as observed through lookup. -/
lemma lookupKey_insertAnswer (a : AnswerSet) (k v key : String) :
    lookupKey (insertAnswer a k v) key = if key = k then some v else lookupKey a key := by
  unfold insertAnswer
  by_cases hk : hasKey a k
  · rw [if_pos hk]
    by_cases hkey : key = k
    · subst hkey; rw [lookupKey_setKey_self a key v hk, if_pos rfl]
    · rw [lookupKey_setKey_ne a k v key hkey, if_neg hkey]
  · rw [if_neg hk, lookupKey_append]
    by_cases hkey : key = k
    · subst hkey
      rw [lookupKey_of_hasKey_false a key (by simpa using hk)]
      simp [lookupKey]
    · have hk2 : ¬k = key := fun h => hkey h.symm
      cases hl : lookupKey a key with
      | some v2 => simp [hl, hkey]
      | none => simp [hl, lookupKey, hk2, hkey]

lemma countKey_setKey (a : AnswerSet) (k v key : String) :
    countKey (setKey a k v) key = countKey a key := by
  induction a with
  | nil => rfl
  | cons x t ih =>
    by_cases hx : x.1 = k
    · simp [setKey, countKey, hx, ih]
    · simp [setKey, countKey, hx, ih]

lemma countKey_append (a b : AnswerSet) (key : String) :
    countKey (a ++ b) key = countKey a key + countKey b key := by
  induction a with
  | nil => simp [countKey]
  | cons x t ih => simp [countKey, ih]; omega

lemma countKey_of_hasKey_false (a : AnswerSet) (k : String) (h : hasKey a k = false) :
    countKey a k = 0 := by
  induction a with
  | nil => rfl
  | cons x t ih =>
    by_cases hx : x.1 = k
    · simp [hasKey, hx] at h
    · have h2 : hasKey t k = false := by simpa [hasKey, hx] using h
      simp [countKey, hx, ih h2]

lemma countKey_insertAnswer_le (a : AnswerSet) (k v key : String)
    (h : countKey a key ≤ 1) : countKey (insertAnswer a k v) key ≤ 1 := by
  unfold insertAnswer
  by_cases hk : hasKey a k
  · rw [if_pos hk, countKey_setKey]; exact h
  · rw [if_neg hk, countKey_append]
    by_cases hkey : k = key
    · subst hkey
      rw [countKey_of_hasKey_false a k (by simpa using hk)]
      simp [countKey]
    · simp [countKey, hkey]
      omega

lemma one_le_countKey_of_lookupKey (a : AnswerSet) (key v : String)
    (h : lookupKey a key = some v) : 1 ≤ countKey a key := by
  induction a with
  | nil => simp [lookupKey] at h
  | cons x t ih =>
    by_cases hx : x.1 = key
    · simp [countKey, hx]
    · have h2 : lookupKey t key = some v := by simpa [lookupKey, hx] using h
      have := ih h2
      simp [countKey, hx]
      omega

lemma countKey_accumFrom_le (ans : Nat → String) (key : String) :
    ∀ (l : List Question) (acc : AnswerSet) (i : Nat),
    countKey acc key ≤ 1 → countKey (accumFrom acc i l ans) key ≤ 1
  | [], acc, i, h => h
  | q :: t, acc, i, h =>
    countKey_accumFrom_le ans key t _ (i + 1)
      (countKey_insertAnswer_le acc _ (ans i) key h)

/-- Lookup after the accumulation loop: the last question deriving `key`
wins; if none does the original binding is untouched. -/
lemma lookupKey_accumFrom (ans : Nat → String) (key : String) :
    ∀ (l : List Question) (i : Nat) (acc : AnswerSet),
    lookupKey (accumFrom acc i l ans) key =
      match lastMatch l i key with
      | some m => some (ans m)
      | none => lookupKey acc key
  | [], i, acc => by simp [accumFrom, lastMatch]
  | q :: t, i, acc => by
    have ih := lookupKey_accumFrom ans key t (i + 1)
      (insertAnswer acc (generateAnswerKey (q.prompt.getD "") i) (ans i))
    cases hlm : lastMatch t (i + 1) key with
    | some m => simpa [accumFrom, lastMatch, hlm] using ih
    | none =>
      rw [hlm] at ih
      by_cases hdk : generateAnswerKey (q.prompt.getD "") i = key
      · simp only [accumFrom, lastMatch, hlm, hdk, if_pos rfl] at ih ⊢
        rw [ih, lookupKey_insertAnswer]
        simp [hdk]
      · have hkd : ¬key = generateAnswerKey (q.prompt.getD "") i := fun h => hdk h.symm
        simp only [accumFrom, lastMatch, hlm] at ih ⊢
        rw [if_neg hdk, ih, lookupKey_insertAnswer, if_neg hkd]

/-! ## Chain Orchestrator lemmas -/

lemma get?_some_lt {α : Type} {l : List α} {n : Nat} {a : α}
    (h : l.get? n = some a) : n < l.length := by
  rw [List.get?_eq_getElem?] at h
  exact (List.getElem?_eq_some_iff.mp h).1

lemma okAt_eq_of_get? {qs : List Question} {j : Nat} {q : Question}
    (h : qs.get? j = some q) : okAt qs j = chainValidQ q := by
  unfold okAt
  rw [h]

lemma chainValidQ_parts {q : Question} (h : chainValidQ q = true) :
    promptMissingB q.prompt = false ∧
    ¬(effectiveType q = "dropdown" ∧ optionsMissingB q.options = true) := by
  simp only [chainValidQ, Bool.and_eq_true, Bool.not_eq_true'] at h
  obtain ⟨h1, h2⟩ := h
  refine ⟨h1, ?_⟩
  rintro ⟨hd, ho⟩
  simp [hd, ho] at h2

/-- Unfolding one loop iteration for a question that passes both
validations, on a supported platform. -/
lemma runChainAux_cons_valid (p : Platform) (hp : p.isSupported = true)
    (dialog : Nat → DialogAct) (total : Nat) (q : Question) (rest : List Question)
    (i : Nat) (acc : AnswerSet) (sp : List Nat)
    (hpm : promptMissingB q.prompt = false)
    (hdd : ¬(effectiveType q = "dropdown" ∧ optionsMissingB q.options = true)) :
    runChainAux p dialog total (q :: rest) i acc sp =
      match dialog i with
      | .returns r =>
        runChainAux p dialog total rest (i + 1)
          (insertAnswer acc (generateAnswerKey (q.prompt.getD "") i) r) (sp ++ [i])
      | .throws m =>
        if includes m "cancelled" = true then
          (.cancelled ("User cancelled at question " ++ toString (i + 1)) i acc,
            sp ++ [i])
        else (.thrown m, sp ++ [i]) := by
  cases p with
  | other name => simp [Platform.isSupported] at hp
  | darwin => simp [runChainAux, hpm, hdd]
  | win32 => simp [runChainAux, hpm, hdd]
  | linux => simp [runChainAux, hpm, hdd]

/-- Running the loop across a block of valid, answered questions reaches
the rest of the chain with the block's answers accumulated and its
indices spawned. -/
lemma runChainAux_reach (p : Platform) (hp : p.isSupported = true)
    (dialog : Nat → DialogAct) (ans : Nat → String) (total : Nat) :
    ∀ (l₁ l₂ : List Question) (i₀ : Nat) (acc : AnswerSet) (sp : List Nat),
    (∀ j q, l₁.get? j = some q →
      chainValidQ q = true ∧ dialog (i₀ + j) = .returns (ans (i₀ + j))) →
    runChainAux p dialog total (l₁ ++ l₂) i₀ acc sp =
      runChainAux p dialog total l₂ (i₀ + l₁.length)
        (accumFrom acc i₀ l₁ ans) (sp ++ List.range' i₀ l₁.length)
  | [], l₂, i₀, acc, sp, _ => by simp [accumFrom, List.range']
  | q :: t, l₂, i₀, acc, sp, h => by
    obtain ⟨hvq, hd⟩ := h 0 q rfl
    rw [Nat.add_zero] at hd
    obtain ⟨hpm, hdd⟩ := chainValidQ_parts hvq
    rw [List.cons_append,
      runChainAux_cons_valid p hp dialog total q (t ++ l₂) i₀ acc sp hpm hdd]
    simp only [hd]
    rw [runChainAux_reach p hp dialog ans total t l₂ (i₀ + 1)
      (insertAnswer acc (generateAnswerKey (q.prompt.getD "") i₀) (ans i₀))
      (sp ++ [i₀])
      (fun j q' hq' => by
        have hh := h (j + 1) q' (by simpa using hq')
        have e : i₀ + (j + 1) = (i₀ + 1) + j := by omega
        rw [e] at hh
        exact hh)]
    have e1 : (i₀ + 1) + t.length = i₀ + (q :: t).length := by simp; omega
    have e2 : List.range' i₀ (q :: t).length = i₀ :: List.range' (i₀ + 1) t.length := rfl
    rw [e1, e2]
    simp [accumFrom]

/-- Every spawned index belongs to a question that passed validation. -/
lemma runChainAux_spawn_mem (p : Platform) (dialog : Nat → DialogAct) (total : Nat) :
    ∀ (l : List Question) (i₀ : Nat) (acc : AnswerSet) (sp : List Nat) (k : Nat),
    k ∈ (runChainAux p dialog total l i₀ acc sp).2 →
    k ∈ sp ∨ ∃ j q, l.get? j = some q ∧ k = i₀ + j ∧ chainValidQ q = true
  | [], _, _, sp, k, h => by
    left
    simpa [runChainAux] using h
  | q :: t, i₀, acc, sp, k, h => by
    by_cases hpm : promptMissingB q.prompt
    · left; simpa [runChainAux, hpm] using h
    · by_cases hdd : effectiveType q = "dropdown" ∧ optionsMissingB q.options = true
      · left; simpa [runChainAux, hpm, hdd] using h
      · have hvq : chainValidQ q = true := by
          simp only [chainValidQ, Bool.and_eq_true, Bool.not_eq_true']
          refine ⟨by simpa using hpm, ?_⟩
          by_cases hd : effectiveType q = "dropdown"
          · have ho : optionsMissingB q.options = false := by
              rcases Bool.eq_false_or_eq_true (optionsMissingB q.options) with h0 | h1
              · exact absurd ⟨hd, h0⟩ hdd
              · exact h1
            simp [ho]
          · simp [hd]
        have hcore : ∀ (hp : p.isSupported = true),
            k ∈ (runChainAux p dialog total (q :: t) i₀ acc sp).2 →
            k ∈ sp ∨ ∃ j q', (q :: t).get? j = some q' ∧ k = i₀ + j ∧
              chainValidQ q' = true := by
          intro hp h2
          rw [runChainAux_cons_valid p hp dialog total q t i₀ acc sp
            (by simpa using hpm) hdd] at h2
          cases hdi : dialog i₀ with
          | returns r =>
            simp only [hdi] at h2
            rcases runChainAux_spawn_mem p dialog total t (i₀ + 1) _ (sp ++ [i₀]) k h2
              with hin | ⟨j, q', hg, hk, hv⟩
            · rcases List.mem_append.mp hin with h3 | h3
              · exact Or.inl h3
              · right
                exact ⟨0, q, rfl, by simpa using h3, hvq⟩
            · right
              exact ⟨j + 1, q', by simpa using hg, by omega, hv⟩
          | throws m =>
            simp only [hdi] at h2
            have h3 : k ∈ sp ++ [i₀] := by
              by_cases hc : includes m "cancelled" = true <;> simpa [hc] using h2
            rcases List.mem_append.mp h3 with h4 | h4
            · exact Or.inl h4
            · right
              exact ⟨0, q, rfl, by simpa using h4, hvq⟩
        cases p with
        | other name => left; simpa [runChainAux, hpm, hdd] using h
        | darwin => exact hcore rfl h
        | win32 => exact hcore rfl h
        | linux => exact hcore rfl h

/-! ## Escaper round trips -/

lemma jsReplaceChar_append (tc : Char) (r : List Char) (a b : List Char) :
    jsReplaceChar tc r (a ++ b) = jsReplaceChar tc r a ++ jsReplaceChar tc r b := by
  induction a with
  | nil => simp [jsReplaceChar]
  | cons c t ih => simp [jsReplaceChar, ih]

lemma psLitDecode_step_ne (c : Char) (t : List Char) (hc : ¬c = sqC) :
    psLitDecode (c :: t) = (psLitDecode t).map (c :: ·) := by
  rw [psLitDecode.eq_def]
  simp [hc]

lemma psLitDecode_step_sq (t : List Char) :
    psLitDecode (sqC :: sqC :: t) = (psLitDecode t).map (sqC :: ·) := by
  rw [psLitDecode.eq_def]
  simp

lemma psLitDecode_jsReplace : ∀ l : List Char,
    psLitDecode (jsReplaceChar sqC [sqC, sqC] l) = some l
  | [] => rfl
  | c :: t => by
    by_cases hc : c = sqC
    · subst hc
      have he : jsReplaceChar sqC [sqC, sqC] (sqC :: t) =
          sqC :: sqC :: jsReplaceChar sqC [sqC, sqC] t := by
        simp [jsReplaceChar]
      rw [he, psLitDecode_step_sq, psLitDecode_jsReplace t]
      rfl
    · have he : jsReplaceChar sqC [sqC, sqC] (c :: t) =
          c :: jsReplaceChar sqC [sqC, sqC] t := by
        simp [jsReplaceChar, hc]
      rw [he, psLitDecode_step_ne c _ hc, psLitDecode_jsReplace t]
      rfl

lemma shellAux_inSQ_sq (t : List Char) :
    shellDecodeAux .inSQ (sqC :: t) = shellDecodeAux .unq t := by
  rw [shellDecodeAux.eq_def]
  simp

lemma shellAux_inSQ_ne (c : Char) (t : List Char) (hc : ¬c = sqC) :
    shellDecodeAux .inSQ (c :: t) =
      (shellDecodeAux .inSQ t).map fun r => (c :: r.1, r.2) := by
  rw [shellDecodeAux.eq_def]
  simp [hc]

lemma shellAux_unq_sq (t : List Char) :
    shellDecodeAux .unq (sqC :: t) = shellDecodeAux .inSQ t := by
  rw [shellDecodeAux.eq_def]
  simp

lemma shellAux_unq_bs (d : Char) (t : List Char) (hd : ¬d = nlC) :
    shellDecodeAux .unq (bsC :: d :: t) =
      (shellDecodeAux .unq t).map fun r => (d :: r.1, r.2) := by
  rw [shellDecodeAux.eq_def]
  simp +decide [hd]

lemma shellAux_inDQ_ne (c : Char) (t : List Char)
    (h1 : ¬c = dqC) (h2 : ¬c = bsC) (h3 : ¬c = '$') (h4 : ¬c = btC) :
    shellDecodeAux .inDQ (c :: t) =
      (shellDecodeAux .inDQ t).map fun r => (c :: r.1, r.2) := by
  rw [shellDecodeAux.eq_def]
  simp [h1, h2, h3, h4]

lemma shellAux_inDQ_bs_dq (t : List Char) :
    shellDecodeAux .inDQ (bsC :: dqC :: t) =
      (shellDecodeAux .inDQ t).map fun r => (dqC :: r.1, r.2) := by
  rw [shellDecodeAux.eq_def]
  simp +decide

lemma shellDQ_escapePosix : ∀ l : List Char,
    (∀ c ∈ l, ¬(c = bsC ∨ c = '$' ∨ c = btC)) →
    shellDecodeAux .inDQ (jsReplaceChar dqC [bsC, dqC] l) = some (l, .inDQ)
  | [], _ => rfl
  | c :: t, h => by
    have ht : ∀ c' ∈ t, ¬(c' = bsC ∨ c' = '$' ∨ c' = btC) :=
      fun c' hc' => h c' (List.mem_cons_of_mem _ hc')
    have hc := h c (List.mem_cons_self _ _)
    push_neg at hc
    obtain ⟨hbs, hdol, hbt⟩ := hc
    by_cases hdq : c = dqC
    · subst hdq
      have he : jsReplaceChar dqC [bsC, dqC] (dqC :: t) =
          bsC :: dqC :: jsReplaceChar dqC [bsC, dqC] t := by
        simp [jsReplaceChar]
      rw [he, shellAux_inDQ_bs_dq, shellDQ_escapePosix t ht]
      rfl
    · have he : jsReplaceChar dqC [bsC, dqC] (c :: t) =
          c :: jsReplaceChar dqC [bsC, dqC] t := by
        simp [jsReplaceChar, hdq]
      rw [he, shellAux_inDQ_ne c _ hdq hbs hdol hbt, shellDQ_escapePosix t ht]
      rfl

lemma escapeASList_append (a b : List Char) :
    escapeASList (a ++ b) = escapeASList a ++ escapeASList b := by
  simp [escapeASList, jsReplaceChar_append]

lemma escapeASList_single (c : Char) : escapeASList [c] = encAS c := by
  by_cases h1 : c = bsC
  · subst h1; decide
  · by_cases h2 : c = dqC
    · subst h2; decide
    · by_cases h3 : c = sqC
      · subst h3; decide
      · by_cases h4 : c = nlC
        · subst h4; decide
        · simp [escapeASList, jsReplaceChar, encAS, h1, h2, h3, h4]

lemma shellSQ_escapeAS : ∀ l : List Char,
    shellDecodeAux .inSQ (escapeASList l) = some (midList l, .inSQ)
  | [] => rfl
  | c :: t => by
    have hcons : escapeASList (c :: t) = encAS c ++ escapeASList t := by
      rw [show (c :: t) = [c] ++ t from rfl, escapeASList_append, escapeASList_single]
    rw [hcons]
    have ih := shellSQ_escapeAS t
    by_cases h1 : c = bsC
    · subst h1
      rw [show encAS bsC = [bsC, bsC] by decide, List.cons_append, List.cons_append,
        List.nil_append, shellAux_inSQ_ne bsC _ (by decide),
        shellAux_inSQ_ne bsC _ (by decide), ih]
      simp +decide [midList, midAS]
    · by_cases h2 : c = dqC
      · subst h2
        rw [show encAS dqC = [bsC, dqC] by decide, List.cons_append, List.cons_append,
          List.nil_append, shellAux_inSQ_ne bsC _ (by decide),
          shellAux_inSQ_ne dqC _ (by decide), ih]
        simp +decide [midList, midAS]
      · by_cases h3 : c = sqC
        · subst h3
          rw [show encAS sqC = [sqC, bsC, sqC, sqC] by decide, List.cons_append,
            List.cons_append, List.cons_append, List.cons_append, List.nil_append,
            shellAux_inSQ_sq, shellAux_unq_bs sqC _ (by decide), shellAux_unq_sq, ih]
          simp +decide [midList, midAS]
        · by_cases h4 : c = nlC
          · subst h4
            rw [show encAS nlC = [' '] by decide, List.cons_append, List.nil_append,
              shellAux_inSQ_ne ' ' _ (by decide), ih]
            simp +decide [midList, midAS]
          · rw [show encAS c = [c] by simp [encAS, h1, h2, h3, h4], List.cons_append,
              List.nil_append, shellAux_inSQ_ne c _ h3, ih]
            simp [midList, midAS, h1, h2, h4]

lemma asLit_step_ne (c : Char) (t : List Char) (h1 : ¬c = bsC) (h2 : ¬c = dqC) :
    asLitDecode (c :: t) = (asLitDecode t).map (c :: ·) := by
  rw [asLitDecode.eq_def]
  simp [h1, h2]

lemma asLit_step_bs_bs (t : List Char) :
    asLitDecode (bsC :: bsC :: t) = (asLitDecode t).map (bsC :: ·) := by
  rw [asLitDecode.eq_def]
  simp +decide

lemma asLit_step_bs_dq (t : List Char) :
    asLitDecode (bsC :: dqC :: t) = (asLitDecode t).map (dqC :: ·) := by
  rw [asLitDecode.eq_def]
  simp +decide

lemma asLitDecode_midList : ∀ l : List Char,
    asLitDecode (midList l) = some (collapseNLList l)
  | [] => rfl
  | c :: t => by
    have ih := asLitDecode_midList t
    by_cases h1 : c = bsC
    · subst h1
      rw [show midList (bsC :: t) = bsC :: bsC :: midList t by simp +decide [midList, midAS],
        asLit_step_bs_bs, ih]
      simp +decide [collapseNLList]
    · by_cases h2 : c = dqC
      · subst h2
        rw [show midList (dqC :: t) = bsC :: dqC :: midList t by simp +decide [midList, midAS],
          asLit_step_bs_dq, ih]
        simp +decide [collapseNLList]
      · by_cases h4 : c = nlC
        · subst h4
          rw [show midList (nlC :: t) = ' ' :: midList t by simp +decide [midList, midAS],
            asLit_step_ne ' ' _ (by decide) (by decide), ih]
          simp +decide [collapseNLList]
        · rw [show midList (c :: t) = c :: midList t by simp [midList, midAS, h1, h2, h4],
            asLit_step_ne c _ h1 h2, ih]
          simp [collapseNLList, h4]

/-! ## Claim theorems -/

/-- C7 (counterexample): the claim that every escaper's output, decoded by
its target interpreter, equals the input with newlines collapsed to
spaces fails for the PowerShell escaper: it performs no newline folding,
so the decoded text of an input containing a newline keeps the newline. -/
theorem escaper_newline_counterexample :
    psLitDecodeS (escapePowerShell "a\nb") ≠ some (collapseNewlines "a\nb") := by
  decide

/-- C7 (amended): the AppleScript escaper round-trips through the shell
single-quote layer and AppleScript literal decoding with newlines
collapsed to single spaces; the PowerShell escaper round-trips through
PowerShell single-quoted-literal decoding with newlines (and everything
else) preserved verbatim; the POSIX double-quote escaper round-trips with
newlines preserved only for texts free of backslashes, dollar signs and
backticks, which it does not escape. -/
theorem escaper_roundtrip_amended :
    (∀ s : String, appleScriptDecode (escapeAppleScript s) = some (collapseNewlines s))
    ∧ (∀ s : String, psLitDecodeS (escapePowerShell s) = some s)
    ∧ (∀ s : String, posixSafe s = true → shellDQDecode (escapePosixArg s) = some s) := by
  refine ⟨?_, ?_, ?_⟩
  · intro s
    have h1 : shellSQDecode (escapeAppleScript s) = some (String.mk (midList s.data)) := by
      unfold shellSQDecode escapeAppleScript
      rw [show (String.mk (escapeASList s.data)).data = escapeASList s.data from rfl]
      rw [shellSQ_escapeAS]
    unfold appleScriptDecode
    rw [h1]
    show (asLitDecode (midList s.data)).map String.mk = some (collapseNewlines s)
    rw [asLitDecode_midList]
    rfl
  · intro s
    unfold psLitDecodeS escapePowerShell
    rw [show (String.mk (jsReplaceChar sqC [sqC, sqC] s.data)).data =
      jsReplaceChar sqC [sqC, sqC] s.data from rfl]
    rw [psLitDecode_jsReplace]
    rfl
  · intro s hsafe
    have hall : ∀ c ∈ s.data, ¬(c = bsC ∨ c = '$' ∨ c = btC) := by
      have h1 : ∀ x ∈ s.data, (¬x = bsC ∧ ¬x = '$') ∧ ¬x = btC := by
        simpa [posixSafe] using hsafe
      intro c hc
      have h2 := h1 c hc
      tauto
    unfold shellDQDecode escapePosixArg
    rw [show (String.mk (jsReplaceChar dqC [bsC, dqC] s.data)).data =
      jsReplaceChar dqC [bsC, dqC] s.data from rfl]
    rw [shellDQ_escapePosix s.data hall]

/-- C9 (divergence witness): `showZenityDialog` classifies its exec error
by searching the error message for the substrings `code 1` and
`code 255`, not by the process exit status. Node's exec rejection message
is `Command failed:` followed by the command line and standard error, so
a genuine cancellation (exit status 1, empty standard error, first
conjunct) is rethrown as an ordinary failure, while a non-cancellation
failure whose command line happens to contain `code 255` (second
conjunct) is reported as a cancellation. -/
theorem zenity_exit_code_bug :
    showZenityDialog (ExecOut.fail
        "Command failed: zenity --entry --text=\"Pick a name:\" --title=\"Input Required\"") =
      Except.error
        "Command failed: zenity --entry --text=\"Pick a name:\" --title=\"Input Required\"" ∧
    showZenityDialog (ExecOut.fail
        "Command failed: zenity --entry --text=\"Enter code 255:\" --title=\"Input Required\"") =
      Except.error "User cancelled the input dialog" := by
  constructor <;> rfl

/-- C8: on Linux the adapters are tried in the order zenity, kdialog,
terminal: when zenity is present its dialog is invoked first; when the
zenity probe fails, or zenity is present but its invocation fails,
kdialog is attempted next when present; and with neither zenity nor
kdialog present the request is answered exclusively by the terminal
adapter. -/
theorem linux_adapter_order :
    (∀ env : LinuxEnv, env.zenityPresent = true →
      (showLinuxDialog env).2.head? = some Adapter.zenity)
    ∧ (∀ env : LinuxEnv, env.zenityPresent = false → env.kdialogPresent = true →
      Adapter.kdialog ∈ (showLinuxDialog env).2)
    ∧ (∀ (env : LinuxEnv) (e : String), env.zenityPresent = true →
      showZenityDialog env.zenityRun = .error e → env.kdialogPresent = true →
      Adapter.kdialog ∈ (showLinuxDialog env).2)
    ∧ (∀ env : LinuxEnv, env.zenityPresent = false → env.kdialogPresent = false →
      showLinuxDialog env = (showTerminalInput env.terminalRun, [Adapter.terminal])) := by
  refine ⟨?_, ?_, ?_, ?_⟩
  · intro env hz
    simp only [showLinuxDialog, hz, if_true]
    cases hzr : showZenityDialog env.zenityRun with
    | ok s => simp
    | error e =>
      simp only [linuxFallback]
      by_cases hk : env.kdialogPresent
      · simp only [hk, if_true]
        cases showKdialogDialog env.kdialogRun <;> simp
      · simp [hk]
  · intro env hz hk
    simp only [showLinuxDialog, hz, Bool.false_eq_true, if_false, linuxFallback, hk,
      if_true]
    cases showKdialogDialog env.kdialogRun <;> simp
  · intro env e hz hzr hk
    simp only [showLinuxDialog, hz, if_true, hzr, linuxFallback, hk]
    cases showKdialogDialog env.kdialogRun <;> simp
  · intro env hz hk
    simp [showLinuxDialog, hz, linuxFallback, hk]

/-- C1: when every question before index `i` is valid and answered and
the dialog for question `i` rejects with a cancellation message, the
chain stops immediately and returns the cancellation result whose
`answeredQuestions` is `i` and whose partial answers are exactly those
accumulated from the questions before `i`; only questions `0..i` were
executed, none after `i`. -/
theorem chain_cancellation_result (p : Platform) (hp : p.isSupported = true)
    (dialog : Nat → DialogAct) (ans : Nat → String) (qs : List Question)
    (i : Nat) (hi : i < qs.length)
    (hprev : ∀ j, j < i → okAt qs j = true ∧ dialog j = DialogAct.returns (ans j))
    (hqi : okAt qs i = true) (m : String)
    (hm : dialog i = DialogAct.throws m) (hcm : includes m "cancelled" = true) :
    runChain p dialog qs =
      (.cancelled ("User cancelled at question " ++ toString (i + 1)) i
        (accumAnswers qs ans i), List.range (i + 1)) := by
  have hsplit : qs = qs.take i ++ (qs.get ⟨i, hi⟩ :: qs.drop (i + 1)) := by
    conv_lhs => rw [← List.take_append_drop i qs]
    rw [List.drop_eq_get_cons hi]
  have hfirst : ∀ j q, (qs.take i).get? j = some q →
      chainValidQ q = true ∧ dialog (0 + j) = DialogAct.returns (ans (0 + j)) := by
    intro j q hq
    have hjlen : j < (qs.take i).length := get?_some_lt hq
    have hji : j < i := by
      rw [List.length_take] at hjlen
      omega
    have hqs : qs.get? j = some q := by
      rw [← List.get?_take hji]
      exact hq
    obtain ⟨hok, hdj⟩ := hprev j hji
    rw [okAt_eq_of_get? hqs] at hok
    constructor
    · exact hok
    · simpa using hdj
  have h1 : runChain p dialog qs =
      runChainAux p dialog qs.length
        (qs.take i ++ (qs.get ⟨i, hi⟩ :: qs.drop (i + 1))) 0 [] [] := by
    rw [runChain, ← hsplit]
  rw [h1, runChainAux_reach p hp dialog ans qs.length (qs.take i) _ 0 [] [] hfirst]
  have hlen : (qs.take i).length = i := by
    rw [List.length_take]; omega
  rw [hlen]
  simp only [Nat.zero_add, List.nil_append]
  have hvq : chainValidQ (qs.get ⟨i, hi⟩) = true := by
    rw [← okAt_eq_of_get? (List.get?_eq_get hi)]
    exact hqi
  obtain ⟨hpm, hdd⟩ := chainValidQ_parts hvq
  rw [runChainAux_cons_valid p hp dialog qs.length _ _ i _ _ hpm hdd]
  simp only [hm]
  rw [if_pos hcm]
  rw [← List.range_eq_range', ← List.range_succ]
  rfl

/-- C6: when the chain reaches a question with a missing or empty prompt,
it aborts immediately with a Failed result carrying only the error
message — structurally distinct from the cancellation result, which
carries the partial answers — and the offending question's dialog is
never invoked. -/
theorem chain_missing_prompt_fails (p : Platform) (hp : p.isSupported = true)
    (dialog : Nat → DialogAct) (ans : Nat → String) (qs : List Question)
    (i : Nat) (q : Question) (hq : qs.get? i = some q)
    (hprev : ∀ j, j < i → okAt qs j = true ∧ dialog j = DialogAct.returns (ans j))
    (hmp : promptMissingB q.prompt = true) :
    runChain p dialog qs =
      (.failed ("Question " ++ toString (i + 1) ++
        " is missing required \"prompt\" field"), List.range i) := by
  have hi : i < qs.length := get?_some_lt hq
  have hgq : qs.get ⟨i, hi⟩ = q := by
    have := List.get?_eq_get hi
    rw [hq] at this
    exact (Option.some.inj this).symm
  have hsplit : qs = qs.take i ++ (q :: qs.drop (i + 1)) := by
    conv_lhs => rw [← List.take_append_drop i qs]
    rw [List.drop_eq_get_cons hi, hgq]
  have hfirst : ∀ j q', (qs.take i).get? j = some q' →
      chainValidQ q' = true ∧ dialog (0 + j) = DialogAct.returns (ans (0 + j)) := by
    intro j q' hq'
    have hjlen : j < (qs.take i).length := get?_some_lt hq'
    have hji : j < i := by
      rw [List.length_take] at hjlen
      omega
    have hqs : qs.get? j = some q' := by
      rw [← List.get?_take hji]
      exact hq'
    obtain ⟨hok, hdj⟩ := hprev j hji
    rw [okAt_eq_of_get? hqs] at hok
    exact ⟨hok, by simpa using hdj⟩
  have h1 : runChain p dialog qs =
      runChainAux p dialog qs.length (qs.take i ++ (q :: qs.drop (i + 1))) 0 [] [] := by
    rw [runChain, ← hsplit]
  rw [h1, runChainAux_reach p hp dialog ans qs.length (qs.take i) _ 0 [] [] hfirst]
  have hlen : (qs.take i).length = i := by
    rw [List.length_take]; omega
  rw [hlen]
  simp only [Nat.zero_add, List.nil_append]
  rw [← List.range_eq_range']
  simp [runChainAux, hmp]

/-- C2: in a fully answered chain in which question `k` is the last one
deriving `key` and some earlier question `j` derives the same `key`, the
resulting AnswerSet holds exactly one entry under `key` and its value is
question `k`'s answer: insertion is last-write-wins. -/
theorem chain_last_write_wins (p : Platform) (hp : p.isSupported = true)
    (dialog : Nat → DialogAct) (ans : Nat → String) (qs : List Question)
    (hall : ∀ j, j < qs.length → okAt qs j = true ∧ dialog j = DialogAct.returns (ans j))
    (key : String) (j k : Nat) (hjk : j < k)
    (hkeyj : (qs.get? j).map (fun q => generateAnswerKey (q.prompt.getD "") j) = some key)
    (hlast : lastMatch qs 0 key = some k) :
    runChain p dialog qs =
      (.ok (formatAnswers (accumFrom [] 0 qs ans)) (accumFrom [] 0 qs ans) qs.length,
        List.range qs.length) ∧
    lookupKey (accumFrom [] 0 qs ans) key = some (ans k) ∧
    countKey (accumFrom [] 0 qs ans) key = 1 := by
  have hfirst : ∀ j' q, qs.get? j' = some q →
      chainValidQ q = true ∧ dialog (0 + j') = DialogAct.returns (ans (0 + j')) := by
    intro j' q hq
    have hj' : j' < qs.length := get?_some_lt hq
    obtain ⟨hok, hdj⟩ := hall j' hj'
    rw [okAt_eq_of_get? hq] at hok
    exact ⟨hok, by simpa using hdj⟩
  have hlo : lookupKey (accumFrom [] 0 qs ans) key = some (ans k) := by
    rw [lookupKey_accumFrom, hlast]
  refine ⟨?_, hlo, ?_⟩
  · have h1 : runChain p dialog qs = runChainAux p dialog qs.length (qs ++ []) 0 [] [] := by
      rw [runChain, List.append_nil]
    rw [h1, runChainAux_reach p hp dialog ans qs.length qs [] 0 [] [] hfirst]
    simp only [runChainAux, Nat.zero_add, List.nil_append]
    rw [← List.range_eq_range']
  · have hle := countKey_accumFrom_le ans key qs [] 0 (by simp [countKey])
    have hge := one_le_countKey_of_lookupKey _ key (ans k) hlo
    omega

/-- C4: a dropdown request with a missing or empty options list fails
fast: on the single-question path the tool returns the validation error
with no adapter invocation; in a chain such a question's index never
appears in the spawn log; and when the chain reaches such a question it
returns the per-question validation error having spawned only the
earlier questions. -/
theorem dropdown_fail_fast :
    (∀ (p : Platform) (cd : Nat → DialogAct) (sd : DialogAct) (args : Args),
      (args.questions = none ∨ args.questions = some []) →
      promptMissingB args.prompt = false →
      singleEffType args = "dropdown" →
      optionsMissingB args.options = true →
      execute p cd sd args = (.failed "Dropdown type requires options array", []))
    ∧ (∀ (p : Platform) (dialog : Nat → DialogAct) (qs : List Question)
        (i : Nat) (q : Question), qs.get? i = some q →
        effectiveType q = "dropdown" → optionsMissingB q.options = true →
        i ∉ (runChain p dialog qs).2)
    ∧ (∀ (p : Platform) (dialog : Nat → DialogAct) (ans : Nat → String)
        (qs : List Question) (i : Nat) (q : Question), p.isSupported = true →
        (∀ j, j < i → okAt qs j = true ∧ dialog j = DialogAct.returns (ans j)) →
        qs.get? i = some q → promptMissingB q.prompt = false →
        effectiveType q = "dropdown" → optionsMissingB q.options = true →
        runChain p dialog qs =
          (.failed ("Question " ++ toString (i + 1) ++
            ": Dropdown type requires options array"), List.range i)) := by
  refine ⟨?_, ?_, ?_⟩
  · intro p cd sd args hq hpm hdt ho
    rcases hq with hq | hq
    · simp [execute, hq, executeSingle, hpm, hdt, ho]
    · simp [execute, hq, executeSingle, hpm, hdt, ho]
  · intro p dialog qs i q hq hd ho hmem
    rcases runChainAux_spawn_mem p dialog qs.length qs 0 [] [] i
      (by simpa [runChain] using hmem) with hin | ⟨j, q', hg, hk, hv⟩
    · simp at hin
    · have hji : j = i := by omega
      subst hji
      have hqq : q' = q := by
        have := hg.symm.trans hq
        injection this
      subst hqq
      obtain ⟨-, hdd⟩ := chainValidQ_parts hv
      exact hdd ⟨hd, ho⟩
  · intro p dialog ans qs i q hp hprev hq hpm hd ho
    have hi : i < qs.length := get?_some_lt hq
    have hgq : qs.get ⟨i, hi⟩ = q := by
      have := List.get?_eq_get hi
      rw [hq] at this
      exact (Option.some.inj this).symm
    have hsplit : qs = qs.take i ++ (q :: qs.drop (i + 1)) := by
      conv_lhs => rw [← List.take_append_drop i qs]
      rw [List.drop_eq_get_cons hi, hgq]
    have hfirst : ∀ j q', (qs.take i).get? j = some q' →
        chainValidQ q' = true ∧ dialog (0 + j) = DialogAct.returns (ans (0 + j)) := by
      intro j q' hq'
      have hjlen : j < (qs.take i).length := get?_some_lt hq'
      have hji : j < i := by
        rw [List.length_take] at hjlen
        omega
      have hqs : qs.get? j = some q' := by
        rw [← List.get?_take hji]
        exact hq'
      obtain ⟨hok, hdj⟩ := hprev j hji
      rw [okAt_eq_of_get? hqs] at hok
      exact ⟨hok, by simpa using hdj⟩
    have h1 : runChain p dialog qs =
        runChainAux p dialog qs.length (qs.take i ++ (q :: qs.drop (i + 1))) 0 [] [] := by
      rw [runChain, ← hsplit]
    rw [h1, runChainAux_reach p hp dialog ans qs.length (qs.take i) _ 0 [] [] hfirst]
    have hlen : (qs.take i).length = i := by
      rw [List.length_take]; omega
    rw [hlen]
    simp only [Nat.zero_add, List.nil_append]
    rw [← List.range_eq_range']
    simp [runChainAux, hpm, hd, ho]

/-- C5: with both `prompt` and `questions` absent (or `questions` empty)
the tool fails with the descriptive parameter error before any adapter
runs; with a non-empty `questions` list the chained path is taken
regardless of `prompt`, so `questions` is preferred. -/
theorem prompt_questions_precedence :
    (∀ (p : Platform) (cd : Nat → DialogAct) (sd : DialogAct) (args : Args),
      args.prompt = none → (args.questions = none ∨ args.questions = some []) →
      execute p cd sd args =
        (.failed "Either \"prompt\" or \"questions\" parameter is required", []))
    ∧ (∀ (p : Platform) (cd : Nat → DialogAct) (sd : DialogAct) (args : Args)
        (qs : List Question), args.questions = some qs → qs ≠ [] →
        execute p cd sd args =
          (.chained (runChain p cd qs).1, (runChain p cd qs).2)) := by
  constructor
  · intro p cd sd args hp hq
    rcases hq with hq | hq
    · simp [execute, hq, executeSingle, promptMissingB, hp]
    · simp [execute, hq, executeSingle, promptMissingB, hp]
  · intro p cd sd args qs hq hne
    have hlen : 0 < qs.length := List.length_pos.mpr hne
    simp [execute, hq, hlen]

/-! ## Witnesses: the claim theorems applied at concrete inputs -/

/-- Witness for C1: a three-question chain cancelled at the second
question returns the partial result with `answeredQuestions = 1`, only
question 1's answer, and only questions 0 and 1 executed. -/
theorem chain_cancellation_result_witness :
    runChain Platform.linux
      (fun n => if n = 0 then DialogAct.returns "Ana"
        else DialogAct.throws "User cancelled the input dialog")
      [{ prompt := some "What is your name?" }, { prompt := some "Enter your email:" },
       { prompt := some "xyz" }] =
      (.cancelled "User cancelled at question 2" 1 [("name", "Ana")], [0, 1]) := by
  have h := chain_cancellation_result Platform.linux rfl
    (fun n => if n = 0 then DialogAct.returns "Ana"
      else DialogAct.throws "User cancelled the input dialog")
    (fun _ => "Ana")
    [{ prompt := some "What is your name?" }, { prompt := some "Enter your email:" },
     { prompt := some "xyz" }]
    1 (by decide) (by decide) (by decide) "User cancelled the input dialog"
    rfl (by decide)
  exact h.trans (by decide)

/-- Witness for C6: a chain whose second question lacks a prompt aborts
with the Failed result carrying no partial answers. -/
theorem chain_missing_prompt_witness :
    runChain Platform.darwin (fun _ => DialogAct.returns "Ana")
      [{ prompt := some "What is your name?" }, { title := some "Oops" }] =
      (.failed "Question 2 is missing required \"prompt\" field", [0]) := by
  have h := chain_missing_prompt_fails Platform.darwin rfl
    (fun _ => DialogAct.returns "Ana") (fun _ => "Ana")
    [{ prompt := some "What is your name?" }, { title := some "Oops" }]
    1 { title := some "Oops" } (by decide) (by decide) (by decide)
  exact h.trans (by decide)

/-- Witness for C2: two questions deriving the key `name` leave a single
entry holding the second question's answer. -/
theorem chain_last_write_wins_witness :
    runChain Platform.win32
      (fun n => DialogAct.returns (if n = 0 then "Alice" else "Bob"))
      [{ prompt := some "What is your name?" }, { prompt := some "Enter your name:" }] =
      (.ok "name: Bob" [("name", "Bob")] 2, [0, 1]) ∧
    lookupKey (accumFrom [] 0
      [{ prompt := some "What is your name?" }, { prompt := some "Enter your name:" }]
      (fun n => if n = 0 then "Alice" else "Bob")) "name" = some "Bob" ∧
    countKey (accumFrom [] 0
      [{ prompt := some "What is your name?" }, { prompt := some "Enter your name:" }]
      (fun n => if n = 0 then "Alice" else "Bob")) "name" = 1 := by
  have h := chain_last_write_wins Platform.win32 rfl
    (fun n => DialogAct.returns (if n = 0 then "Alice" else "Bob"))
    (fun n => if n = 0 then "Alice" else "Bob")
    [{ prompt := some "What is your name?" }, { prompt := some "Enter your name:" }]
    (by decide) "name" 0 1 (by decide) (by decide) (by decide)
  exact ⟨h.1.trans (by decide), h.2.1, h.2.2⟩

/-- Witness for C4: a dropdown request with no options fails fast with no
spawn on the single path, in the spawn log, and when reached in a chain. -/
theorem dropdown_fail_fast_witness :
    execute Platform.linux (fun _ => DialogAct.returns "x") (DialogAct.returns "x")
      { prompt := some "Choose:", type := some "dropdown" } =
      (.failed "Dropdown type requires options array", []) ∧
    (0 : Nat) ∉ (runChain Platform.linux (fun _ => DialogAct.returns "x")
      [{ prompt := some "Pick one", type := some "dropdown", options := some [] }]).2 ∧
    runChain Platform.linux (fun _ => DialogAct.returns "x")
      [{ prompt := some "What is your name?" },
       { prompt := some "Pick one", type := some "dropdown", options := some [] }] =
      (.failed "Question 2: Dropdown type requires options array", [0]) := by
  obtain ⟨h1, h2, h3⟩ := dropdown_fail_fast
  refine ⟨?_, ?_, ?_⟩
  · exact h1 Platform.linux (fun _ => DialogAct.returns "x") (DialogAct.returns "x")
      { prompt := some "Choose:", type := some "dropdown" }
      (Or.inl rfl) (by decide) (by decide) (by decide)
  · exact h2 Platform.linux (fun _ => DialogAct.returns "x")
      [{ prompt := some "Pick one", type := some "dropdown", options := some [] }] 0
      { prompt := some "Pick one", type := some "dropdown", options := some [] }
      (by decide) (by decide) (by decide)
  · exact (h3 Platform.linux (fun _ => DialogAct.returns "x") (fun _ => "x")
      [{ prompt := some "What is your name?" },
       { prompt := some "Pick one", type := some "dropdown", options := some [] }] 1
      { prompt := some "Pick one", type := some "dropdown", options := some [] }
      rfl (by decide) (by decide) (by decide) (by decide) (by decide)).trans (by decide)

/-- Witness for C5: an empty request fails with the parameter error, and
a request carrying both a prompt and a non-empty question list takes the
chained path. -/
theorem prompt_questions_precedence_witness :
    execute Platform.darwin (fun _ => DialogAct.returns "x") (DialogAct.returns "x") {} =
      (.failed "Either \"prompt\" or \"questions\" parameter is required", []) ∧
    execute Platform.darwin (fun _ => DialogAct.returns "Ana") (DialogAct.returns "zzz")
      { prompt := some "ignored",
        questions := some [{ prompt := some "What is your name?" }] } =
      (.chained (ChainResult.ok "name: Ana" [("name", "Ana")] 1), [0]) := by
  obtain ⟨h1, h2⟩ := prompt_questions_precedence
  refine ⟨?_, ?_⟩
  · exact h1 Platform.darwin (fun _ => DialogAct.returns "x") (DialogAct.returns "x")
      {} rfl (Or.inl rfl)
  · exact (h2 Platform.darwin (fun _ => DialogAct.returns "Ana") (DialogAct.returns "zzz")
      { prompt := some "ignored",
        questions := some [{ prompt := some "What is your name?" }] }
      [{ prompt := some "What is your name?" }] rfl (by decide)).trans (by decide)

/-- Witness for C7 (amended) on concrete texts containing quotes,
backslashes and newlines. -/
theorem escaper_roundtrip_amended_witness :
    appleScriptDecode (escapeAppleScript "say \"hi\"\nit's me \\ ok") =
      some (collapseNewlines "say \"hi\"\nit's me \\ ok") ∧
    psLitDecodeS (escapePowerShell "it's") = some "it's" ∧
    posixSafe "say \"hi\"" = true ∧
    shellDQDecode (escapePosixArg "say \"hi\"") = some "say \"hi\"" := by
  obtain ⟨h1, h2, h3⟩ := escaper_roundtrip_amended
  exact ⟨h1 _, h2 _, by decide, h3 _ (by decide)⟩

/-- Witness for C8 at concrete Linux environments. -/
theorem linux_adapter_order_witness :
    (showLinuxDialog
      { zenityPresent := true, kdialogPresent := true, zenityRun := ExecOut.ok "a",
        kdialogRun := ExecOut.ok "b", terminalRun := ExecOut.ok "c" }).2.head? =
      some Adapter.zenity ∧
    Adapter.kdialog ∈ (showLinuxDialog
      { zenityPresent := false, kdialogPresent := true, zenityRun := ExecOut.ok "a",
        kdialogRun := ExecOut.ok "b", terminalRun := ExecOut.ok "c" }).2 ∧
    Adapter.kdialog ∈ (showLinuxDialog
      { zenityPresent := true, kdialogPresent := true, zenityRun := ExecOut.fail "boom",
        kdialogRun := ExecOut.ok "b", terminalRun := ExecOut.ok "c" }).2 ∧
    showLinuxDialog
      { zenityPresent := false, kdialogPresent := false, zenityRun := ExecOut.ok "a",
        kdialogRun := ExecOut.ok "b", terminalRun := ExecOut.ok "c" } =
      (showTerminalInput (ExecOut.ok "c"), [Adapter.terminal]) := by
  obtain ⟨h1, h2, h3, h4⟩ := linux_adapter_order
  exact ⟨h1 _ rfl, h2 _ rfl rfl, h3 _ "boom" rfl rfl rfl, h4 _ rfl rfl⟩

end ClankerInput
